import Mathlib

/-!
Shallow embedding of `GHSZ.py` (gas hydrate stability zone tool).

The numerical core is `joides`, a two-phase linear search over candidate
sub-sea-floor depths `z = 1..2500`.  The Python loops are embedded as
fuel-based recursions: a loop `for z in range(1, 2501)` becomes a
recursion with fuel `2500` started at `z = 1`.  Python float arithmetic
is modelled by real arithmetic; `math.log` is `Real.log`.  The module
level dictionary `memoize_dict` is modelled as an association list
threaded explicitly through `joidesMemo`.  The arcpy grid wrapper is
modelled by `evaluate` on a rectangular list-of-lists of integers
(`RasterToNumPyArray(..., nodata_to_value=99999)` followed by
`astype(int)` yields an integer grid).
-/

namespace GHSZ

/-- Inner loop `for z2 in range(1, 2501): ... if a2 < b2: return z2`,
generic over the Bool-valued test `c2`; fuel counts remaining iterations. -/
def innerAux (c2 : ℕ → Bool) : ℕ → ℕ → Option ℕ
  | 0, _ => none
  | fuel + 1, z2 => if c2 z2 then some z2 else innerAux c2 fuel (z2 + 1)

/-- The whole inner loop of `joides`: scan `z2 = 1..2500` for the first
`z2` satisfying `c2`. -/
def innerScan (c2 : ℕ → Bool) : Option ℕ :=
  innerAux c2 2500 1

/-- Outer loop of `joides`, generic over the three Bool-valued tests:
`ov z` is `a > 9.355001`, `c1 z` is `a < b`, `c2 z2` is `a2 < b2`.
When `ov z` holds the inner scan is run; if it finds nothing the outer
loop continues with `z + 1`, exactly as the Python `for` loop does. -/
def scanAux (ov c1 c2 : ℕ → Bool) : ℕ → ℕ → Option ℕ
  | 0, _ => none
  | fuel + 1, z =>
    if ov z then
      match innerScan c2 with
      | some z2 => some z2
      | none => scanAux ov c1 c2 fuel (z + 1)
    else if c1 z then some z
    else scanAux ov c1 c2 fuel (z + 1)

/-- The whole outer loop: scan `z = 1..2500`. -/
def outerScan (ov c1 c2 : ℕ → Bool) : Option ℕ :=
  scanAux ov c1 c2 2500 1

/-- Simplified variant of the outer loop (for claim C10): at the first
`z` with `ov z` it returns the inner scan's outcome outright instead of
continuing the outer loop when the inner scan fails. -/
def scanOnceAux (ov c1 c2 : ℕ → Bool) : ℕ → ℕ → Option ℕ
  | 0, _ => none
  | fuel + 1, z =>
    if ov z then innerScan c2
    else if c1 z then some z
    else scanOnceAux ov c1 c2 fuel (z + 1)

/-- Simplified whole scan (claim C10). -/
def outerScanOnce (ov c1 c2 : ℕ → Bool) : Option ℕ :=
  scanOnceAux ov c1 c2 2500 1

/-- Outer loop threading the memo dictionary: on `return z` the Python
code first executes `memoize_dict[water_depth] = z`; a dict update is a
cons onto the association list (lookup takes the newest binding). -/
def scanMemoAux (ov c1 c2 : ℕ → Bool) (key : ℝ) (cache : List (ℝ × ℕ)) :
    ℕ → ℕ → Option ℕ × List (ℝ × ℕ)
  | 0, _ => (none, cache)
  | fuel + 1, z =>
    if ov z then
      match innerScan c2 with
      | some z2 => (some z2, (key, z2) :: cache)
      | none => scanMemoAux ov c1 c2 key cache fuel (z + 1)
    else if c1 z then (some z, (key, z) :: cache)
    else scanMemoAux ov c1 c2 key cache fuel (z + 1)

/-- Argument of `math.log` in both loops: `10.17 * (water_depth + z)`. -/
noncomputable def logArg (d : ℝ) (z : ℕ) : ℝ := 10.17 * (d + z)

/-- Kelvin temperature at candidate depth `z`:
`(base_water_temp + ((z * geothermal_gradient) / 1000)) + 273.15`. -/
noncomputable def tempK (T G : ℝ) (z : ℕ) : ℝ := (T + z * G / 1000) + 273.15

open Classical in
/-- Test `a > 9.355001` of line 47 of `GHSZ.py`. -/
noncomputable def overB (d : ℝ) (z : ℕ) : Bool :=
  decide (9.355001 < Real.log (logArg d z))

open Classical in
/-- Test `a < b` with `b = 38.53 - (8386.8 / tempK)` (lines 55-56). -/
noncomputable def cond1B (d T G : ℝ) (z : ℕ) : Bool :=
  decide (Real.log (logArg d z) < 38.53 - 8386.8 / tempK T G z)

open Classical in
/-- Test `a2 < b2` with `b2 = 46.74 - (10748.1 / tempK)` (lines 50-51). -/
noncomputable def cond2B (d T G : ℝ) (z2 : ℕ) : Bool :=
  decide (Real.log (logArg d z2) < 46.74 - 10748.1 / tempK T G z2)

/-- The pure search of `joides` (the function body below the memo check):
the value returned for `water_depth = d`, `base_water_temp = T`,
`geothermal_gradient = G`; `none` is the implicit Python `None`. -/
noncomputable def joides (d T G : ℝ) : Option ℕ :=
  outerScan (overB d) (cond1B d T G) (cond2B d T G)

/-- Simplified variant of `joides` for claim C10: upon the first `z`
with `a > 9.355001` it runs the inner scan exactly once and returns its
outcome without continuing the outer loop. -/
noncomputable def joidesOnce (d T G : ℝ) : Option ℕ :=
  outerScanOnce (overB d) (cond1B d T G) (cond2B d T G)

open Classical in
/-- Dictionary lookup `memoize_dict[water_depth]` (first matching key). -/
noncomputable def lookup (d : ℝ) : List (ℝ × ℕ) → Option ℕ
  | [] => none
  | (k, v) :: t => if k = d then some v else lookup d t

/-- `joides` with the memo dictionary made explicit: result together
with the dictionary state after the call (lines 42-58 of `GHSZ.py`). -/
noncomputable def joidesMemo (d T G : ℝ) (cache : List (ℝ × ℕ)) :
    Option ℕ × List (ℝ × ℕ) :=
  match lookup d cache with
  | some v => (some v, cache)
  | none => scanMemoAux (overB d) (cond1B d T G) (cond2B d T G) d cache 2500 1

/-- Cache states producible by prior `joidesMemo` calls with arbitrary
parameters (claim C1's "any cache state produced by prior solver calls,
including prior calls made with different parameter values"). -/
inductive ReachableAny : List (ℝ × ℕ) → Prop
  | nil : ReachableAny []
  | step (d T G : ℝ) (c : List (ℝ × ℕ)) :
      ReachableAny c → ReachableAny (joidesMemo d T G c).2

/-- Cache states producible by prior `joidesMemo` calls all made with
the one fixed parameter pair `(T, G)`. -/
inductive Reachable (T G : ℝ) : List (ℝ × ℕ) → Prop
  | nil : Reachable T G []
  | step (d : ℝ) (c : List (ℝ × ℕ)) :
      Reachable T G c → Reachable T G (joidesMemo d T G c).2

open Classical in
/-- Transcription of claim C2's description of the inner search, written
from the spec's words: return the first `z2` in `1..2500` with
`ln(10.17*(waterDepth+z2)) < 46.74 - 10748.1/(T(z2)+273.15)`. -/
noncomputable def specInnerScan (d T G : ℝ) : ℕ → ℕ → Option ℕ
  | 0, _ => none
  | fuel + 1, z2 =>
    if Real.log (10.17 * (d + z2)) <
        46.74 - 10748.1 / ((T + z2 * G / 1000) + 273.15) then some z2
    else specInnerScan d T G fuel (z2 + 1)

open Classical in
/-- Transcription of claim C2's description of the solver, written from
the spec's words: scan `z = 1..2500` in order; while `a <= 9.355001`
return the first `z` with `a < b`; at the first `z` with `a > 9.355001`
start a fresh independent scan `z2 = 1..2500` and return its outcome. -/
noncomputable def specOuterScan (d T G : ℝ) : ℕ → ℕ → Option ℕ
  | 0, _ => none
  | fuel + 1, z =>
    if 9.355001 < Real.log (10.17 * (d + z)) then specInnerScan d T G 2500 1
    else if Real.log (10.17 * (d + z)) <
        38.53 - 8386.8 / ((T + z * G / 1000) + 273.15) then some z
    else specOuterScan d T G fuel (z + 1)

/-- The claim-C2 description of the solver as a whole. -/
noncomputable def joidesSpec (d T G : ℝ) : Option ℕ :=
  specOuterScan d T G 2500 1

/-- All cells of the grid (row-major). -/
def gridCells (g : List (List ℤ)) : List ℤ :=
  g.foldr (fun row acc => row ++ acc) []

/-- Grid evaluator (lines 76-94 of `GHSZ.py`): reject the raster when
`in_raster.minimum < 0 or in_raster.maximum < 0` (raising
`IncorrectRasterStats`, modelled by `Except.error ()`, produced before
any cell is computed); otherwise map `joides` over every cell
(`np.vectorize(joides)`) and reverse-compute the output no-data value
`no_data_value = joides(99999, ...)`. -/
noncomputable def evaluate (g : List (List ℤ)) (T G : ℝ) :
    Except Unit (List (List (Option ℕ)) × Option ℕ) :=
  if (gridCells g).minimum < ((0 : ℤ) : WithTop ℤ) ∨
      (gridCells g).maximum < ((0 : ℤ) : WithBot ℤ) then
    Except.error ()
  else
    Except.ok
      (g.map fun row => row.map fun d : ℤ => joides (d : ℝ) T G,
       joides 99999 T G)

/-! ### Step equations for the fuel recursions -/

theorem innerAux_zero (c2 : ℕ → Bool) (z2 : ℕ) : innerAux c2 0 z2 = none := rfl

theorem innerAux_succ (c2 : ℕ → Bool) (fuel z2 : ℕ) :
    innerAux c2 (fuel + 1) z2 =
      if c2 z2 then some z2 else innerAux c2 fuel (z2 + 1) := rfl

theorem scanAux_zero (ov c1 c2 : ℕ → Bool) (z : ℕ) :
    scanAux ov c1 c2 0 z = none := rfl

theorem scanAux_succ (ov c1 c2 : ℕ → Bool) (fuel z : ℕ) :
    scanAux ov c1 c2 (fuel + 1) z =
      if ov z then
        match innerScan c2 with
        | some z2 => some z2
        | none => scanAux ov c1 c2 fuel (z + 1)
      else if c1 z then some z
      else scanAux ov c1 c2 fuel (z + 1) := rfl

theorem scanOnceAux_succ (ov c1 c2 : ℕ → Bool) (fuel z : ℕ) :
    scanOnceAux ov c1 c2 (fuel + 1) z =
      if ov z then innerScan c2
      else if c1 z then some z
      else scanOnceAux ov c1 c2 fuel (z + 1) := rfl

theorem scanMemoAux_zero (ov c1 c2 : ℕ → Bool) (key : ℝ)
    (cache : List (ℝ × ℕ)) (z : ℕ) :
    scanMemoAux ov c1 c2 key cache 0 z = (none, cache) := rfl

theorem scanMemoAux_succ (ov c1 c2 : ℕ → Bool) (key : ℝ)
    (cache : List (ℝ × ℕ)) (fuel z : ℕ) :
    scanMemoAux ov c1 c2 key cache (fuel + 1) z =
      if ov z then
        match innerScan c2 with
        | some z2 => (some z2, (key, z2) :: cache)
        | none => scanMemoAux ov c1 c2 key cache fuel (z + 1)
      else if c1 z then (some z, (key, z) :: cache)
      else scanMemoAux ov c1 c2 key cache fuel (z + 1) := rfl

/-! ### Characterization of the inner scan -/

/-- A successful inner scan returns the first satisfying candidate of
its window. -/
theorem innerAux_some (c2 : ℕ → Bool) :
    ∀ fuel z w, innerAux c2 fuel z = some w →
      c2 w = true ∧ z ≤ w ∧ w < z + fuel ∧
        ∀ y, z ≤ y → y < w → c2 y = false := by
  intro fuel
  induction fuel with
  | zero => intro z w h; simp [innerAux_zero] at h
  | succ n ih =>
    intro z w h
    rw [innerAux_succ] at h
    by_cases hc : c2 z = true
    · rw [if_pos hc] at h
      obtain rfl : z = w := by injection h
      exact ⟨hc, le_refl z, by omega, fun y hy1 hy2 => by omega⟩
    · rw [if_neg hc] at h
      obtain ⟨h1, h2, h3, h4⟩ := ih (z + 1) w h
      refine ⟨h1, by omega, by omega, fun y hy1 hy2 => ?_⟩
      rcases eq_or_lt_of_le hy1 with rfl | hy
      · exact Bool.not_eq_true _ ▸ (by simpa using hc)
      · exact h4 y (by omega) hy2

/-- Converse: the first satisfying candidate of the window is returned. -/
theorem innerAux_some_intro (c2 : ℕ → Bool) :
    ∀ fuel z w, c2 w = true → z ≤ w → w < z + fuel →
      (∀ y, z ≤ y → y < w → c2 y = false) →
      innerAux c2 fuel z = some w := by
  intro fuel
  induction fuel with
  | zero => intro z w _ h1 h2 _; omega
  | succ n ih =>
    intro z w hw h1 h2 hmin
    rw [innerAux_succ]
    rcases eq_or_lt_of_le h1 with rfl | hlt
    · rw [if_pos hw]
    · rw [if_neg (by simp [hmin z (le_refl z) hlt])]
      exact ih (z + 1) w hw (by omega) (by omega) fun y hy1 hy2 =>
        hmin y (by omega) hy2

/-- An inner scan over a window with no satisfying candidate fails. -/
theorem innerAux_none_intro (c2 : ℕ → Bool) :
    ∀ fuel z, (∀ y, z ≤ y → y < z + fuel → c2 y = false) →
      innerAux c2 fuel z = none := by
  intro fuel
  induction fuel with
  | zero => intro z _; rfl
  | succ n ih =>
    intro z h
    rw [innerAux_succ, if_neg (by simp [h z (le_refl z) (by omega)])]
    exact ih (z + 1) fun y hy1 hy2 => h y (by omega) (by omega)

/-- An inner scan over a window containing a satisfying candidate
succeeds. -/
theorem innerAux_isSome (c2 : ℕ → Bool) :
    ∀ fuel z w, c2 w = true → z ≤ w → w < z + fuel →
      ∃ v, innerAux c2 fuel z = some v := by
  intro fuel
  induction fuel with
  | zero => intro z w _ h1 h2; omega
  | succ n ih =>
    intro z w hw h1 h2
    rw [innerAux_succ]
    by_cases hc : c2 z = true
    · exact ⟨z, by rw [if_pos hc]⟩
    · rcases eq_or_lt_of_le h1 with rfl | hlt
      · exact absurd hw hc
      · rw [if_neg hc]
        exact ih (z + 1) w hw (by omega) (by omega)

/-! ### Characterization of the outer scan -/

/-- A successful outer scan either found its answer through the first
branch test `c1` (with the branch-selection test `ov` false there), or
returned the inner scan's answer verbatim. -/
theorem scanAux_some_cases (ov c1 c2 : ℕ → Bool) :
    ∀ fuel z w, scanAux ov c1 c2 fuel z = some w →
      (ov w = false ∧ c1 w = true ∧ z ≤ w ∧ w < z + fuel) ∨
        innerScan c2 = some w := by
  intro fuel
  induction fuel with
  | zero => intro z w h; simp [scanAux_zero] at h
  | succ n ih =>
    intro z w h
    rw [scanAux_succ] at h
    by_cases hov : ov z = true
    · rw [if_pos hov] at h
      cases hin : innerScan c2 with
      | some v =>
        rw [hin] at h
        exact Or.inr (show some v = some w from h)
      | none =>
        rw [hin] at h
        rcases ih (z + 1) w (show scanAux ov c1 c2 n (z + 1) = some w from h)
          with ⟨a, b, c, d⟩ | hr
        · exact Or.inl ⟨a, b, by omega, by omega⟩
        · rw [hin] at hr
          exact absurd hr (by simp)
    · rw [if_neg hov] at h
      by_cases hc1 : c1 z = true
      · rw [if_pos hc1] at h
        injection h with h'
        subst h'
        exact Or.inl ⟨by simpa using hov, hc1, le_refl z, by omega⟩
      · rw [if_neg hc1] at h
        rcases ih (z + 1) w h with ⟨a, b, c, d⟩ | hr
        · exact Or.inl ⟨a, b, by omega, by omega⟩
        · exact Or.inr hr

/-- If the first-branch test never fires on the window and the inner
scan fails, the outer scan fails. -/
theorem scanAux_none_intro (ov c1 c2 : ℕ → Bool) :
    ∀ fuel z, (∀ y, z ≤ y → y < z + fuel → c1 y = false) →
      innerScan c2 = none → scanAux ov c1 c2 fuel z = none := by
  intro fuel
  induction fuel with
  | zero => intro z _ _; rfl
  | succ n ih =>
    intro z hc1 hin
    rw [scanAux_succ]
    by_cases hov : ov z = true
    · rw [if_pos hov, hin]
      exact ih (z + 1) (fun y hy1 hy2 => hc1 y (by omega) (by omega)) hin
    · rw [if_neg hov, if_neg (by simp [hc1 z (le_refl z) (by omega)])]
      exact ih (z + 1) (fun y hy1 hy2 => hc1 y (by omega) (by omega)) hin

/-- Once `ov` holds (and stays true upward) while the inner scan fails,
the remaining outer scan can only fail. -/
theorem scanAux_ov_none (ov c1 c2 : ℕ → Bool)
    (hmon : ∀ y, ov y = true → ov (y + 1) = true) :
    ∀ fuel z, ov z = true → innerScan c2 = none →
      scanAux ov c1 c2 fuel z = none := by
  intro fuel
  induction fuel with
  | zero => intro z _ _; rfl
  | succ n ih =>
    intro z hov hin
    rw [scanAux_succ, if_pos hov, hin]
    exact ih (z + 1) (hmon z hov) hin

/-- With an upward-closed branch-selection test, the looping scan of the
source agrees with the scan that runs the inner search exactly once. -/
theorem scanAux_eq_once (ov c1 c2 : ℕ → Bool)
    (hmon : ∀ y, ov y = true → ov (y + 1) = true) :
    ∀ fuel z, scanAux ov c1 c2 fuel z = scanOnceAux ov c1 c2 fuel z := by
  intro fuel
  induction fuel with
  | zero => intro z; rfl
  | succ n ih =>
    intro z
    rw [scanAux_succ, scanOnceAux_succ]
    by_cases hov : ov z = true
    · rw [if_pos hov, if_pos hov]
      cases hin : innerScan c2 with
      | some v => rfl
      | none =>
        exact scanAux_ov_none ov c1 c2 hmon n (z + 1) (hmon z hov) hin
    · rw [if_neg hov, if_neg hov]
      by_cases hc1 : c1 z = true
      · rw [if_pos hc1, if_pos hc1]
      · rw [if_neg hc1, if_neg hc1, ih (z + 1)]

/-- The memo-threading scan computes the pure scan's answer and touches
the dictionary exactly on success, by consing the key with the answer. -/
theorem scanMemoAux_eq (ov c1 c2 : ℕ → Bool) (key : ℝ)
    (cache : List (ℝ × ℕ)) :
    ∀ fuel z, scanMemoAux ov c1 c2 key cache fuel z =
      (scanAux ov c1 c2 fuel z,
        match scanAux ov c1 c2 fuel z with
        | some w => (key, w) :: cache
        | none => cache) := by
  intro fuel
  induction fuel with
  | zero => intro z; rfl
  | succ n ih =>
    intro z
    rw [scanMemoAux_succ, scanAux_succ]
    by_cases hov : ov z = true
    · rw [if_pos hov, if_pos hov]
      cases hin : innerScan c2 with
      | some v => rfl
      | none => exact ih (z + 1)
    · rw [if_neg hov, if_neg hov]
      by_cases hc1 : c1 z = true
      · rw [if_pos hc1, if_pos hc1]
      · rw [if_neg hc1, if_neg hc1]; exact ih (z + 1)

/-! ### Bool tests versus their propositional content -/

theorem overB_eq_true (d : ℝ) (z : ℕ) :
    overB d z = true ↔ 9.355001 < Real.log (logArg d z) := by
  simp [overB]

theorem overB_eq_false (d : ℝ) (z : ℕ) :
    overB d z = false ↔ Real.log (logArg d z) ≤ 9.355001 := by
  simp [overB]

theorem cond1B_eq_true (d T G : ℝ) (z : ℕ) :
    cond1B d T G z = true ↔
      Real.log (logArg d z) < 38.53 - 8386.8 / tempK T G z := by
  simp [cond1B]

theorem cond1B_eq_false (d T G : ℝ) (z : ℕ) :
    cond1B d T G z = false ↔
      38.53 - 8386.8 / tempK T G z ≤ Real.log (logArg d z) := by
  simp [cond1B]

theorem cond2B_eq_true (d T G : ℝ) (z2 : ℕ) :
    cond2B d T G z2 = true ↔
      Real.log (logArg d z2) < 46.74 - 10748.1 / tempK T G z2 := by
  simp [cond2B]

theorem cond2B_eq_false (d T G : ℝ) (z2 : ℕ) :
    cond2B d T G z2 = false ↔
      46.74 - 10748.1 / tempK T G z2 ≤ Real.log (logArg d z2) := by
  simp [cond2B]

/-! ### The spec transcription agrees with the generic once-scan -/

theorem specInnerScan_eq (d T G : ℝ) :
    ∀ fuel z, specInnerScan d T G fuel z = innerAux (cond2B d T G) fuel z := by
  intro fuel
  induction fuel with
  | zero => intro z; rfl
  | succ n ih =>
    intro z
    rw [innerAux_succ]
    simp only [specInnerScan]
    by_cases h : Real.log (10.17 * (d + z)) <
        46.74 - 10748.1 / ((T + z * G / 1000) + 273.15)
    · rw [if_pos h, if_pos (show cond2B d T G z = true from by
        simp only [cond2B_eq_true, logArg, tempK]; exact h)]
    · rw [if_neg h, if_neg (show ¬cond2B d T G z = true from by
        simp only [cond2B_eq_true, logArg, tempK]; exact h), ih (z + 1)]

theorem specOuterScan_eq (d T G : ℝ) :
    ∀ fuel z, specOuterScan d T G fuel z =
      scanOnceAux (overB d) (cond1B d T G) (cond2B d T G) fuel z := by
  intro fuel
  induction fuel with
  | zero => intro z; rfl
  | succ n ih =>
    intro z
    rw [scanOnceAux_succ]
    simp only [specOuterScan]
    by_cases hov : 9.355001 < Real.log (10.17 * (d + z))
    · rw [if_pos hov, if_pos (show overB d z = true from by
        simp only [overB_eq_true, logArg]; exact hov)]
      rw [innerScan, specInnerScan_eq]
    · rw [if_neg hov, if_neg (show ¬overB d z = true from by
        simp only [overB_eq_true, logArg]; exact hov)]
      by_cases hc1 : Real.log (10.17 * (d + z)) <
          38.53 - 8386.8 / ((T + z * G / 1000) + 273.15)
      · rw [if_pos hc1, if_pos (show cond1B d T G z = true from by
          simp only [cond1B_eq_true, logArg, tempK]; exact hc1)]
      · rw [if_neg hc1, if_neg (show ¬cond1B d T G z = true from by
          simp only [cond1B_eq_true, logArg, tempK]; exact hc1), ih (z + 1)]

/-! ### Elementary exponential bounds -/

theorem exp_le_inv_one_sub {x : ℝ} (h1 : x < 1) :
    Real.exp x ≤ 1 / (1 - x) := by
  have h3 : 0 < 1 - x := by linarith
  rw [le_div_iff₀ h3]
  have h2 : 1 - x ≤ Real.exp (-x) := by
    have := Real.add_one_le_exp (-x)
    linarith
  calc Real.exp x * (1 - x) ≤ Real.exp x * Real.exp (-x) :=
        mul_le_mul_of_nonneg_left h2 (Real.exp_pos x).le
    _ = 1 := by rw [← Real.exp_add]; simp

theorem exp_nat_eq_pow (n : ℕ) : Real.exp n = Real.exp 1 ^ n := by
  rw [← Real.exp_nat_mul, mul_one]

theorem exp_lb (n : ℕ) : (2.7182818283 : ℝ) ^ n ≤ Real.exp n := by
  rw [exp_nat_eq_pow]
  exact pow_le_pow_left₀ (by norm_num) Real.exp_one_gt_d9.le n

theorem exp_ub (n : ℕ) : Real.exp n ≤ (2.7182818286 : ℝ) ^ n := by
  rw [exp_nat_eq_pow]
  exact pow_le_pow_left₀ (Real.exp_pos 1).le Real.exp_one_lt_d9.le n

theorem exp_nine_lt : Real.exp 9 < 8103.09 := by
  have h := exp_ub 9
  rw [show ((9 : ℕ) : ℝ) = (9 : ℝ) from by norm_num] at h
  refine lt_of_le_of_lt h ?_
  norm_num

theorem exp_three_gt : (20 : ℝ) < Real.exp 3 := by
  have h := exp_lb 3
  rw [show ((3 : ℕ) : ℝ) = (3 : ℝ) from by norm_num] at h
  refine lt_of_lt_of_le ?_ h
  norm_num

theorem exp_twelve_gt : (162000 : ℝ) < Real.exp 12 := by
  have h := exp_lb 12
  rw [show ((12 : ℕ) : ℝ) = (12 : ℝ) from by norm_num] at h
  refine lt_of_lt_of_le ?_ h
  norm_num

theorem exp_thirteen_lt : Real.exp 13 < 443000 := by
  have h := exp_ub 13
  rw [show ((13 : ℕ) : ℝ) = (13 : ℝ) from by norm_num] at h
  refine lt_of_le_of_lt h ?_
  norm_num

theorem exp_fourteen_gt : (1202000 : ℝ) < Real.exp 14 := by
  have h := exp_lb 14
  rw [show ((14 : ℕ) : ℝ) = (14 : ℝ) from by norm_num] at h
  refine lt_of_lt_of_le ?_ h
  norm_num

theorem exp_point355_le : Real.exp 0.355001 ≤ 1.431 := by
  have hcube : Real.exp 0.355001 ^ 3 = Real.exp 1.065003 := by
    rw [← Real.exp_nat_mul]
    norm_num
  have h1 : Real.exp 0.065003 ≤ 1.0696 := by
    calc Real.exp 0.065003 ≤ 1 / (1 - 0.065003) :=
          exp_le_inv_one_sub (by norm_num)
      _ ≤ 1.0696 := by norm_num
  have h2 : Real.exp 1.065003 ≤ 2.9075 := by
    rw [show (1.065003 : ℝ) = 1 + 0.065003 from by norm_num, Real.exp_add]
    calc Real.exp 1 * Real.exp 0.065003 ≤ 2.7182818286 * 1.0696 :=
          mul_le_mul Real.exp_one_lt_d9.le h1 (Real.exp_pos _).le (by norm_num)
      _ ≤ 2.9075 := by norm_num
  have h3 : Real.exp 0.355001 ^ 3 ≤ 1.431 ^ 3 := by
    rw [hcube]
    refine h2.trans ?_
    norm_num
  exact le_of_pow_le_pow_left₀ (by norm_num) (by norm_num) h3

/-- Upper bound on the branch-switch threshold `exp 9.355001`: it lies
below `10.17 * 1141`, which bounds first-branch answers (claim C3). -/
theorem exp_switch_lt : Real.exp 9.355001 < 11596 := by
  rw [show (9.355001 : ℝ) = 9 + 0.355001 from by norm_num, Real.exp_add]
  nlinarith [exp_nine_lt, exp_point355_le, Real.exp_pos (9 : ℝ),
    Real.exp_pos (0.355001 : ℝ)]

/-! ### Monotonicity of the branch-selection test -/

/-- For a non-negative water depth the test `a > 9.355001` is upward
closed in `z`: once the first branch's validity threshold is crossed it
stays crossed (the log argument grows with `z`). -/
theorem overB_mono (d : ℝ) (hd : 0 ≤ d) :
    ∀ y, overB d y = true → overB d (y + 1) = true := by
  intro y hy
  rw [overB_eq_true] at hy ⊢
  have h0 : (0 : ℝ) ≤ logArg d y := by
    unfold logArg
    positivity
  rcases eq_or_lt_of_le h0 with heq | hpos
  · rw [← heq, Real.log_zero] at hy
    norm_num at hy
  · refine lt_of_lt_of_le hy (Real.log_le_log hpos ?_)
    unfold logArg
    push_cast
    linarith

/-! ### Concrete facts about the solver at specific inputs -/

theorem logArg_pos {d : ℝ} (hd : 0 ≤ d) {z : ℕ} (hz : 1 ≤ z) :
    0 < logArg d z := by
  unfold logArg
  have h1 : (1 : ℝ) ≤ (z : ℝ) := by exact_mod_cast hz
  nlinarith

theorem logArg_gt_one {d : ℝ} (hd : 0 ≤ d) {z : ℕ} (hz : 1 ≤ z) :
    1 < logArg d z := by
  unfold logArg
  have h1 : (1 : ℝ) ≤ (z : ℝ) := by exact_mod_cast hz
  nlinarith

/-- With `base_water_temp = -100` and zero gradient both boundary curves
are negative while `a` stays positive, so the solver finds nothing. -/
theorem joides_neg_temp_none (d : ℝ) (hd : 0 ≤ d) :
    joides d (-100) 0 = none := by
  rw [joides, outerScan]
  have hin : innerScan (cond2B d (-100) 0) = none := by
    rw [innerScan]
    apply innerAux_none_intro
    intro y hy1 _
    rw [cond2B_eq_false]
    have hlog : 0 < Real.log (logArg d y) := Real.log_pos (logArg_gt_one hd hy1)
    have htk : tempK (-100) 0 y = 173.15 := by unfold tempK; ring
    rw [htk]
    nlinarith
  apply scanAux_none_intro _ _ _ _ _ _ hin
  intro y hy1 _
  rw [cond1B_eq_false]
  have hlog : 0 < Real.log (logArg d y) := Real.log_pos (logArg_gt_one hd hy1)
  have htk : tempK (-100) 0 y = 173.15 := by unfold tempK; ring
  rw [htk]
  nlinarith

/-- At depth `0` with a hot bottom temperature of `1000` the first
candidate already satisfies the first branch: the solver answers `1`. -/
theorem joides_zero_hot : joides 0 1000 0 = some 1 := by
  rw [joides, outerScan, show (2500 : ℕ) = 2499 + 1 from rfl, scanAux_succ]
  have harg : logArg 0 1 = 10.17 := by unfold logArg; norm_num
  have hov : overB 0 1 = false := by
    rw [overB_eq_false, harg, Real.log_le_iff_le_exp (by norm_num)]
    have := Real.add_one_le_exp (9.355001 : ℝ)
    linarith
  rw [if_neg (by simp [hov])]
  have hc1 : cond1B 0 1000 0 1 = true := by
    rw [cond1B_eq_true, harg]
    have htk : tempK 1000 0 1 = 1273.15 := by unfold tempK; norm_num
    rw [htk]
    have hlog : Real.log 10.17 ≤ 3 := by
      rw [Real.log_le_iff_le_exp (by norm_num)]
      linarith [exp_three_gt]
    nlinarith
  rw [if_pos hc1]

theorem tempK_typical (y : ℕ) : tempK 4 30 y = 277.15 + 3 * (y : ℝ) / 100 := by
  unfold tempK
  ring

/-- At the sentinel depth `99999` the second-branch curve is still below
`a2` for every `z2` up to `1150`. -/
theorem cond2B_sentinel_false (y : ℕ) (hy1 : 1 ≤ y) (hy2 : y ≤ 1150) :
    cond2B 99999 4 30 y = false := by
  rw [cond2B_eq_false, tempK_typical]
  have hyr1 : (1 : ℝ) ≤ (y : ℝ) := by exact_mod_cast hy1
  have hyr2 : (y : ℝ) ≤ 1150 := by exact_mod_cast hy2
  have htk_pos : (0 : ℝ) < 277.15 + 3 * (y : ℝ) / 100 := by linarith
  have hlhs : 46.74 - 10748.1 / (277.15 + 3 * (y : ℝ) / 100) ≤ 13 := by
    have hdiv : (33.74 : ℝ) ≤ 10748.1 / (277.15 + 3 * (y : ℝ) / 100) := by
      rw [le_div_iff₀ htk_pos]
      nlinarith
    linarith
  have hargpos : (0 : ℝ) < logArg 99999 y := logArg_pos (by norm_num) hy1
  have hrhs : (13 : ℝ) ≤ Real.log (logArg 99999 y) := by
    rw [Real.le_log_iff_exp_le hargpos]
    have harg : (1017000 : ℝ) ≤ logArg 99999 y := by
      unfold logArg
      nlinarith
    linarith [exp_thirteen_lt]
  linarith

/-- At the sentinel depth `99999` the second branch does succeed by
`z2 = 2500`. -/
theorem cond2B_sentinel_last : cond2B 99999 4 30 2500 = true := by
  rw [cond2B_eq_true, tempK_typical]
  have harg : logArg 99999 2500 = 1042414.83 := by unfold logArg; norm_num
  have hlhs : Real.log (logArg 99999 2500) ≤ 14 := by
    rw [harg, Real.log_le_iff_le_exp (by norm_num)]
    linarith [exp_fourteen_gt]
  have hrhs : (14 : ℝ) < 46.74 - 10748.1 / (277.15 + 3 * ((2500 : ℕ) : ℝ) / 100) := by
    have h1 : (277.15 : ℝ) + 3 * ((2500 : ℕ) : ℝ) / 100 = 352.15 := by
      push_cast
      norm_num
    rw [h1]
    norm_num
  linarith

/-- The branch-selection test fires immediately at the sentinel depth. -/
theorem overB_sentinel : overB 99999 1 = true := by
  rw [overB_eq_true]
  have harg : logArg 99999 1 = 1017000 := by unfold logArg; norm_num
  rw [harg, Real.lt_log_iff_exp_lt (by norm_num)]
  linarith [exp_switch_lt]

/-- The no-data output value at the spec's typical parameters: the
solver answers through the second branch, somewhere in `1151..2500`. -/
theorem joides_sentinel_found :
    ∃ w, joides 99999 4 30 = some w ∧ 1151 ≤ w ∧ w ≤ 2500 := by
  obtain ⟨v, hv⟩ := innerAux_isSome (cond2B 99999 4 30) 2500 1 2500
    cond2B_sentinel_last (by norm_num) (by norm_num)
  obtain ⟨hc2v, h1v, hvlt, _⟩ := innerAux_some _ 2500 1 v hv
  have hv1151 : 1151 ≤ v := by
    by_contra hlt
    push_neg at hlt
    rw [cond2B_sentinel_false v h1v (by omega)] at hc2v
    exact Bool.false_ne_true hc2v
  refine ⟨v, ?_, hv1151, by omega⟩
  rw [joides, outerScan, show (2500 : ℕ) = 2499 + 1 from rfl, scanAux_succ,
    if_pos overB_sentinel, show innerScan (cond2B 99999 4 30) = some v from hv]

/-- Any depth in the practical range `0..2500` that the solver does
answer is answered by a candidate no deeper than `1150` (at the typical
parameters), hence never collides with the sentinel output. -/
theorem joides_shallow_bound (d : ℝ) (hd0 : 0 ≤ d) (hd1 : d ≤ 2500)
    (w : ℕ) (h : joides d 4 30 = some w) : w ≤ 1150 := by
  rw [joides, outerScan] at h
  rcases scanAux_some_cases _ _ _ 2500 1 w h with ⟨hovf, _, h1w, _⟩ | hin
  · rw [overB_eq_false] at hovf
    have hpos : 0 < logArg d w := logArg_pos hd0 h1w
    rw [Real.log_le_iff_le_exp hpos] at hovf
    have hlt : logArg d w < 11596 := lt_of_le_of_lt hovf exp_switch_lt
    unfold logArg at hlt
    have hwr : (w : ℝ) < 1141 := by nlinarith
    have hw : w < 1141 := by exact_mod_cast hwr
    omega
  · obtain ⟨hc2w, h1w, _, hmin⟩ := innerAux_some _ 2500 1 w hin
    by_contra hgt
    push_neg at hgt
    have h1150 : cond2B d 4 30 1150 = true := by
      rw [cond2B_eq_true, tempK_typical]
      have hpos : (0 : ℝ) < logArg d 1150 := logArg_pos hd0 (by norm_num)
      have hlhs : Real.log (logArg d 1150) ≤ 12 := by
        rw [Real.log_le_iff_le_exp hpos]
        have harg : logArg d 1150 ≤ 37120.5 := by
          unfold logArg
          push_cast
          nlinarith
        linarith [exp_twelve_gt]
      have h1 : (277.15 : ℝ) + 3 * ((1150 : ℕ) : ℝ) / 100 = 311.65 := by
        push_cast
        norm_num
      rw [h1]
      have : (12 : ℝ) < 46.74 - 10748.1 / 311.65 := by norm_num
      linarith
    have hfalse := hmin 1150 (by omega) (by omega)
    rw [h1150] at hfalse
    exact Bool.false_ne_true hfalse.symm

/-! ### The memo dictionary -/

theorem lookup_nil (d : ℝ) : lookup d [] = none := rfl

open Classical in
theorem lookup_cons (d k : ℝ) (v : ℕ) (t : List (ℝ × ℕ)) :
    lookup d ((k, v) :: t) = if k = d then some v else lookup d t := rfl

theorem joidesMemo_hit (d T G : ℝ) (c : List (ℝ × ℕ)) (v : ℕ)
    (hl : lookup d c = some v) : joidesMemo d T G c = (some v, c) := by
  unfold joidesMemo
  rw [hl]

theorem joidesMemo_miss_found (d T G : ℝ) (c : List (ℝ × ℕ)) (w : ℕ)
    (hl : lookup d c = none) (hj : joides d T G = some w) :
    joidesMemo d T G c = (some w, (d, w) :: c) := by
  unfold joidesMemo
  rw [hl, scanMemoAux_eq]
  have hj' : scanAux (overB d) (cond1B d T G) (cond2B d T G) 2500 1 = some w := hj
  rw [hj']

theorem joidesMemo_miss_none (d T G : ℝ) (c : List (ℝ × ℕ))
    (hl : lookup d c = none) (hj : joides d T G = none) :
    joidesMemo d T G c = (none, c) := by
  unfold joidesMemo
  rw [hl, scanMemoAux_eq]
  have hj' : scanAux (overB d) (cond1B d T G) (cond2B d T G) 2500 1 = none := hj
  rw [hj']

/-- Every entry of a cache produced by same-parameter calls records a
successful solver answer for its key. -/
theorem reachable_entries (T G : ℝ) {c : List (ℝ × ℕ)}
    (hc : Reachable T G c) :
    ∀ p : ℝ × ℕ, p ∈ c → joides p.1 T G = some p.2 := by
  induction hc with
  | nil => intro p hp; simp at hp
  | step d c' _ ih =>
    intro p hp
    cases hl : lookup d c' with
    | some v =>
      rw [joidesMemo_hit d T G c' v hl] at hp
      exact ih p hp
    | none =>
      cases hj : joides d T G with
      | none =>
        rw [joidesMemo_miss_none d T G c' hl hj] at hp
        exact ih p hp
      | some w =>
        rw [joidesMemo_miss_found d T G c' w hl hj] at hp
        rcases List.mem_cons.mp (show p ∈ (d, w) :: c' from hp) with rfl | hp'
        · exact hj
        · exact ih p hp'

/-- On a cache whose entries all record solver answers, a lookup hit is
the solver's answer. -/
theorem lookup_entries (T G : ℝ) :
    ∀ c : List (ℝ × ℕ), (∀ p : ℝ × ℕ, p ∈ c → joides p.1 T G = some p.2) →
      ∀ (d : ℝ) (v : ℕ), lookup d c = some v → joides d T G = some v := by
  intro c
  induction c with
  | nil => intro _ d v h; rw [lookup_nil] at h; cases h
  | cons kv t ih =>
    intro hinv d v h
    obtain ⟨k, w⟩ := kv
    rw [lookup_cons] at h
    by_cases hk : k = d
    · rw [if_pos hk] at h
      have h2 : joides k T G = some w := hinv (k, w) (List.mem_cons_self _ _)
      rw [← hk, h2]
      exact h
    · rw [if_neg hk] at h
      exact ih (fun p hp => hinv p (List.mem_cons_of_mem _ hp)) d v h

/-! ### The grid evaluator -/

theorem gridCells_cons (r : List ℤ) (t : List (List ℤ)) :
    gridCells (r :: t) = r ++ gridCells t := rfl

theorem mem_gridCells {g : List (List ℤ)} {row : List ℤ} {x : ℤ}
    (hr : row ∈ g) (hx : x ∈ row) : x ∈ gridCells g := by
  induction g with
  | nil => simp at hr
  | cons r t ih =>
    rw [gridCells_cons]
    rcases List.mem_cons.mp hr with rfl | hr'
    · exact List.mem_append_left _ hx
    · exact List.mem_append_right _ (ih hr')

/-- Inverting a successful evaluation: the output grid is the cell-wise
solver map and the no-data value is the reverse-computed one. -/
theorem evaluate_ok_inv (g : List (List ℤ)) (T G : ℝ)
    (out : List (List (Option ℕ))) (nd : Option ℕ)
    (h : evaluate g T G = Except.ok (out, nd)) :
    out = g.map (fun row => row.map fun d : ℤ => joides (d : ℝ) T G) ∧
      nd = joides 99999 T G := by
  rw [evaluate] at h
  split at h
  · exact absurd h (by simp)
  · have h2 := (Except.ok.injEq _ _).mp h
    have h3 := (Prod.mk.injEq _ _ _ _).mp h2
    exact ⟨h3.1.symm, h3.2.symm⟩

/-! ### Claim theorems -/

/-- C8: for every input triple the solver terminates: both the outer
candidate scan and the inner re-scan are bounded to `1..2500`, so the
search always completes with either a found candidate in that range or
the defined "not found" outcome. -/
theorem C8_solver_total (d T G : ℝ) :
    joides d T G = none ∨ ∃ z, joides d T G = some z ∧ 1 ≤ z ∧ z ≤ 2500 := by
  cases hj : joides d T G with
  | none => exact Or.inl rfl
  | some w =>
    refine Or.inr ⟨w, rfl, ?_⟩
    rw [joides, outerScan] at hj
    rcases scanAux_some_cases _ _ _ 2500 1 w hj with ⟨_, _, h1, h2⟩ | hin
    · exact ⟨by omega, by omega⟩
    · obtain ⟨_, h1, h2, _⟩ := innerAux_some _ 2500 1 w hin
      exact ⟨by omega, by omega⟩

/-- C7: under the precondition `waterDepth ≥ 0` every argument passed to
the logarithm during the search is strictly positive (both loops only
evaluate `logArg` at candidates `z ≥ 1`), so the logarithm can never see
a non-positive argument. -/
theorem C7_log_argument_pos (d : ℝ) (hd : 0 ≤ d) :
    ∀ z : ℕ, 1 ≤ z → 0 < logArg d z :=
  fun _ hz => logArg_pos hd hz

/-- Witness for C7 at depth `0`, candidate `1`. -/
theorem C7_log_argument_pos_witness : (0 : ℝ) ≤ 0 ∧ 0 < logArg 0 1 :=
  ⟨le_refl 0, C7_log_argument_pos 0 (le_refl 0) 1 (le_refl 1)⟩

/-- C5: when no candidate in either phase satisfies its inequality
within `1..2500`, the solver returns the defined "not found" outcome
(the implicit `None`), never an out-of-range or wrapped value. -/
theorem C5_not_found (d T G : ℝ)
    (h1 : ∀ z, 1 ≤ z → z ≤ 2500 → cond1B d T G z = false)
    (h2 : ∀ z2, 1 ≤ z2 → z2 ≤ 2500 → cond2B d T G z2 = false) :
    joides d T G = none := by
  rw [joides, outerScan]
  have hin : innerScan (cond2B d T G) = none := by
    rw [innerScan]
    exact innerAux_none_intro _ 2500 1 fun y hy1 hy2 => h2 y hy1 (by omega)
  exact scanAux_none_intro _ _ _ 2500 1
    (fun y hy1 hy2 => h1 y hy1 (by omega)) hin

/-- Witness for C5: at `(0, -100, 0)` both boundary curves are negative
while `a` is positive, so neither inequality is ever satisfied. -/
theorem C5_not_found_witness : joides 0 (-100) 0 = none := by
  apply C5_not_found
  · intro z hz _
    rw [cond1B_eq_false]
    have hlog : 0 < Real.log (logArg 0 z) :=
      Real.log_pos (logArg_gt_one le_rfl hz)
    have htk : tempK (-100) 0 z = 173.15 := by unfold tempK; ring
    rw [htk]
    nlinarith
  · intro z hz _
    rw [cond2B_eq_false]
    have hlog : 0 < Real.log (logArg 0 z) :=
      Real.log_pos (logArg_gt_one le_rfl hz)
    have htk : tempK (-100) 0 z = 173.15 := by unfold tempK; ring
    rw [htk]
    nlinarith

/-- C10: for `waterDepth ≥ 0` the test `a > 9.355001` is monotone in the
outer candidate, so the solver equals the simplified variant that runs
the inner scan exactly once at the first switch and returns its outcome
without continuing the outer loop. -/
theorem C10_once_equiv (d T G : ℝ) (hd : 0 ≤ d) :
    joides d T G = joidesOnce d T G := by
  rw [joides, joidesOnce, outerScan, outerScanOnce]
  exact scanAux_eq_once _ _ _ (overB_mono d hd) 2500 1

/-- Witness for C10 at `(0, 0, 0)`. -/
theorem C10_once_equiv_witness :
    (0 : ℝ) ≤ 0 ∧ joides 0 0 0 = joidesOnce 0 0 0 :=
  ⟨le_refl 0, C10_once_equiv 0 0 0 (le_refl 0)⟩

/-- C2: for every `waterDepth ≥ 0` the solver computes exactly the
two-phase search described by the claim (transcribed as `joidesSpec`):
while `a ≤ 9.355001` it returns the first `z` with `a < b`; at the first
`z` with `a > 9.355001` it returns the outcome of a fresh scan for the
first `z2` with `a2 < b2`. -/
theorem C2_matches_spec (d T G : ℝ) (hd : 0 ≤ d) :
    joides d T G = joidesSpec d T G := by
  rw [joides, joidesSpec, outerScan, specOuterScan_eq]
  exact scanAux_eq_once _ _ _ (overB_mono d hd) 2500 1

/-- Witness for C2 at `(1, 4, 30)`. -/
theorem C2_matches_spec_witness :
    (0 : ℝ) ≤ 1 ∧ joides 1 4 30 = joidesSpec 1 4 30 :=
  ⟨by norm_num, C2_matches_spec 1 4 30 (by norm_num)⟩

/-- C9: the solver caches only successes: whenever the search exhausts
both branches (pure result `None`), the memo dictionary after the call
is exactly the dictionary before it, and the returned value is whatever
the initial lookup said (an entry is inserted only together with a found
answer). -/
theorem C9_no_cache_on_failure (d T G : ℝ) (c : List (ℝ × ℕ))
    (hj : joides d T G = none) :
    (joidesMemo d T G c).2 = c ∧ (joidesMemo d T G c).1 = lookup d c := by
  cases hl : lookup d c with
  | some v =>
    rw [joidesMemo_hit d T G c v hl]
    exact ⟨rfl, rfl⟩
  | none =>
    rw [joidesMemo_miss_none d T G c hl hj]
    exact ⟨rfl, rfl⟩

/-- Witness for C9: a failing call at `(0, -100, 0)` on a non-empty
cache leaves that cache untouched. -/
theorem C9_no_cache_on_failure_witness :
    (joidesMemo 0 (-100) 0 [((1 : ℝ), 7)]).2 = [((1 : ℝ), 7)] ∧
      (joidesMemo 0 (-100) 0 [((1 : ℝ), 7)]).1 = lookup 0 [((1 : ℝ), 7)] :=
  C9_no_cache_on_failure 0 (-100) 0 [((1 : ℝ), 7)]
    (joides_neg_temp_none 0 le_rfl)

/-- The cache state left by a successful call at `(0, 1000, 0)`. -/
theorem memo_after_zero_hot :
    joidesMemo 0 1000 0 [] = (some 1, [((0 : ℝ), 1)]) :=
  joidesMemo_miss_found 0 1000 0 [] 1 (lookup_nil 0) joides_zero_hot

/-- C1 counterexample: a cache state produced by a prior call with
different parameters (`T = 1000`) poisons a later call with `T = -100`:
the memoized result `some 1` differs from the cleared-cache result
`none`, so memoization is observable across parameter changes. -/
theorem C1_counterexample :
    ReachableAny [((0 : ℝ), 1)] ∧
      (joidesMemo 0 (-100) 0 [((0 : ℝ), 1)]).1 ≠
        (joidesMemo 0 (-100) 0 []).1 := by
  constructor
  · have h := ReachableAny.step 0 1000 0 [] ReachableAny.nil
    have h2 : (joidesMemo 0 1000 0 []).2 = [((0 : ℝ), 1)] := by
      rw [memo_after_zero_hot]
    rwa [h2] at h
  · have hL : (joidesMemo 0 (-100) 0 [((0 : ℝ), 1)]).1 = some 1 := by
      rw [joidesMemo_hit 0 (-100) 0 _ 1 (by rw [lookup_cons, if_pos rfl])]
    have hR : (joidesMemo 0 (-100) 0 []).1 = none := by
      rw [joidesMemo_miss_none 0 (-100) 0 [] (lookup_nil 0)
        (joides_neg_temp_none 0 le_rfl)]
    rw [hL, hR]
    simp

/-- C1 (amended): memoization is observationally transparent for every
cache state produced by prior solver calls made with the same
`(baseWaterTemp, geothermalGradient)` pair: with such a cache the call
returns exactly what it returns on a cleared cache. -/
theorem C1_same_params_transparent (T G : ℝ) (c : List (ℝ × ℕ))
    (hc : Reachable T G c) (d : ℝ) (_hd : 0 ≤ d) :
    (joidesMemo d T G c).1 = (joidesMemo d T G []).1 := by
  have hR : (joidesMemo d T G []).1 = joides d T G := by
    cases hj : joides d T G with
    | some w => rw [joidesMemo_miss_found d T G [] w (lookup_nil d) hj]
    | none => rw [joidesMemo_miss_none d T G [] (lookup_nil d) hj]
  rw [hR]
  cases hl : lookup d c with
  | some v =>
    rw [joidesMemo_hit d T G c v hl]
    exact (lookup_entries T G c (reachable_entries T G hc) d v hl).symm
  | none =>
    cases hj : joides d T G with
    | some w => rw [joidesMemo_miss_found d T G c w hl hj]
    | none => rw [joidesMemo_miss_none d T G c hl hj]

/-- Witness for C1 (amended): a same-parameter cache produced by one
prior call at `(0, 1000, 0)` is transparent for a repeated call. -/
theorem C1_same_params_transparent_witness :
    Reachable 1000 0 ((joidesMemo 0 1000 0 []).2) ∧ (0 : ℝ) ≤ 0 ∧
      (joidesMemo 0 1000 0 ((joidesMemo 0 1000 0 []).2)).1 =
        (joidesMemo 0 1000 0 []).1 :=
  ⟨Reachable.step 0 [] Reachable.nil, le_refl 0,
    C1_same_params_transparent 1000 0 _ (Reachable.step 0 [] Reachable.nil)
      0 (le_refl 0)⟩

/-- C6: a grid containing any negative depth value is rejected before
any per-cell computation and before any output is produced: the whole
evaluation fails with the invalid-input error (`IncorrectRasterStats`,
modelled as `Except.error ()`), with no partially computed result. -/
theorem C6_negative_rejected (g : List (List ℤ)) (T G : ℝ) (i j : ℕ)
    (x : ℤ) (hcell : (g[i]?).bind (fun row => row[j]?) = some x)
    (hx : x < 0) : evaluate g T G = Except.error () := by
  cases hri : g[i]? with
  | none => rw [hri] at hcell; simp at hcell
  | some row =>
    rw [hri] at hcell
    have hcell' : row[j]? = some x := hcell
    have hrow : row ∈ g := List.getElem?_mem hri
    have hxr : x ∈ row := List.getElem?_mem hcell'
    have hmem : x ∈ gridCells g := mem_gridCells hrow hxr
    have hcond : (gridCells g).minimum < ((0 : ℤ) : WithTop ℤ) ∨
        (gridCells g).maximum < ((0 : ℤ) : WithBot ℤ) :=
      Or.inl (lt_of_le_of_lt (List.minimum_le_of_mem' hmem)
        (WithTop.coe_lt_coe.mpr hx))
    rw [evaluate, if_pos hcond]

/-- Witness for C6 on the one-cell grid `[[-1]]`. -/
theorem C6_negative_rejected_witness :
    ((([[-1]] : List (List ℤ))[0]?).bind (fun row => row[0]?) = some (-1) ∧
        (-1 : ℤ) < 0) ∧
      evaluate [[-1]] 4 30 = Except.error () :=
  ⟨⟨by simp, by norm_num⟩,
    C6_negative_rejected [[-1]] 4 30 0 0 (-1) (by simp) (by norm_num)⟩

/-- A full evaluation in which every cell, and the sentinel depth
itself, is unsolvable: the output conflates the two. -/
theorem eval_neg_temp_grid :
    evaluate [[0]] (-100) 0 = Except.ok ([[none]], none) := by
  rw [evaluate, if_neg (by decide)]
  have h0 : joides (((0 : ℤ)) : ℝ) (-100) 0 = none := by
    rw [show (((0 : ℤ)) : ℝ) = (0 : ℝ) from by norm_num]
    exact joides_neg_temp_none 0 le_rfl
  have h9 : joides 99999 (-100) 0 = none :=
    joides_neg_temp_none 99999 (by norm_num)
  simp [h0, h9]
  exact joides_neg_temp_none 0 le_rfl

/-- C4 counterexample: at `(T, G) = (-100, 0)` the depth-0 cell is
unsolvable and maps to `none`, but the reverse-computed no-data output
is also `none`: the "not found" value is not distinguishable from the
no-data sentinel output in this run. -/
theorem C4_counterexample :
    joides 0 (-100) 0 = none ∧
      evaluate [[0]] (-100) 0 = Except.ok ([[none]], none) :=
  ⟨joides_neg_temp_none 0 le_rfl, eval_neg_temp_grid⟩

/-- C4 (amended): an unsolvable cell propagates to the output as the
explicit `none`, which differs from every real answer in `1..2500`; it
also differs from the no-data sentinel output whenever the sentinel
depth itself is solvable (sentinel output `some w`). -/
theorem C4_unsolvable_distinguishable (g : List (List ℤ)) (T G : ℝ)
    (out : List (List (Option ℕ))) (nd : Option ℕ) (i j : ℕ) (d : ℤ)
    (heval : evaluate g T G = Except.ok (out, nd))
    (hcell : (g[i]?).bind (fun row => row[j]?) = some d)
    (hnone : joides (d : ℝ) T G = none) :
    ((out[i]?).bind (fun row => row[j]?) = some none) ∧
      (∀ z : ℕ, 1 ≤ z → z ≤ 2500 → (none : Option ℕ) ≠ some z) ∧
      (∀ w : ℕ, nd = some w → (none : Option ℕ) ≠ nd) := by
  obtain ⟨hout, hnd⟩ := evaluate_ok_inv g T G out nd heval
  refine ⟨?_, fun z _ _ => by simp, fun w hw => by rw [hw]; simp⟩
  subst hout
  cases hri : g[i]? with
  | none => rw [hri] at hcell; simp at hcell
  | some row =>
    rw [hri] at hcell
    have hcell' : row[j]? = some d := hcell
    rw [List.getElem?_map, hri]
    show (row.map fun x : ℤ => joides (x : ℝ) T G)[j]? = some none
    rw [List.getElem?_map, hcell']
    show some (joides (d : ℝ) T G) = some none
    rw [hnone]

/-- Witness for C4 (amended) on the run of `eval_neg_temp_grid`. -/
theorem C4_unsolvable_distinguishable_witness :
    (evaluate [[0]] (-100) 0 = Except.ok ([[none]], none) ∧
        (([[0]] : List (List ℤ))[0]?).bind (fun row => row[0]?) = some 0 ∧
        joides (((0 : ℤ)) : ℝ) (-100) 0 = none) ∧
      (((([[none]] : List (List (Option ℕ)))[0]?).bind
            (fun row => row[0]?) = some none) ∧
        (∀ z : ℕ, 1 ≤ z → z ≤ 2500 → (none : Option ℕ) ≠ some z) ∧
        (∀ w : ℕ, (none : Option ℕ) = some w →
          (none : Option ℕ) ≠ (none : Option ℕ))) := by
  have h0 : joides (((0 : ℤ)) : ℝ) (-100) 0 = none := by
    rw [show (((0 : ℤ)) : ℝ) = (0 : ℝ) from by norm_num]
    exact joides_neg_temp_none 0 le_rfl
  exact ⟨⟨eval_neg_temp_grid, by simp, h0⟩,
    C4_unsolvable_distinguishable [[0]] (-100) 0 [[none]] none 0 0 0
      eval_neg_temp_grid (by simp) h0⟩

/-- C3: sentinel round trip at the spec's typical parameters
`(T, G) = (4, 30)`: every grid cell equal to the no-data input `99999`
maps under the element-wise evaluation to exactly the reverse-computed
`noDataOut`, and no depth in the practical range `0..2500` maps to that
same output value. -/
theorem C3_sentinel_roundtrip (g : List (List ℤ))
    (out : List (List (Option ℕ))) (nd : Option ℕ) (i j : ℕ)
    (heval : evaluate g 4 30 = Except.ok (out, nd))
    (hcell : (g[i]?).bind (fun row => row[j]?) = some 99999) :
    ((out[i]?).bind (fun row => row[j]?) = some nd) ∧
      ∀ d : ℤ, 0 ≤ d → d ≤ 2500 → joides (d : ℝ) 4 30 ≠ nd := by
  obtain ⟨hout, hnd⟩ := evaluate_ok_inv g 4 30 out nd heval
  constructor
  · subst hout
    cases hri : g[i]? with
    | none => rw [hri] at hcell; simp at hcell
    | some row =>
      rw [hri] at hcell
      have hcell' : row[j]? = some 99999 := hcell
      rw [List.getElem?_map, hri]
      show (row.map fun x : ℤ => joides (x : ℝ) 4 30)[j]? = some nd
      rw [List.getElem?_map, hcell']
      show some (joides (((99999 : ℤ)) : ℝ) 4 30) = some nd
      rw [show (((99999 : ℤ)) : ℝ) = (99999 : ℝ) from by norm_num, hnd]
  · intro d hd0 hd1 hcontra
    obtain ⟨w, hw, hw1, _⟩ := joides_sentinel_found
    rw [hnd, hw] at hcontra
    have hb := joides_shallow_bound (d : ℝ) (by exact_mod_cast hd0)
      (by exact_mod_cast hd1) w hcontra
    omega

/-- Witness for C3 on the one-cell sentinel grid `[[99999]]`. -/
theorem C3_sentinel_roundtrip_witness :
    (evaluate [[99999]] 4 30 =
        Except.ok ([[joides (((99999 : ℤ)) : ℝ) 4 30]], joides 99999 4 30) ∧
      (([[99999]] : List (List ℤ))[0]?).bind (fun row => row[0]?) =
        some 99999) ∧
      ((([[joides (((99999 : ℤ)) : ℝ) 4 30]] :
            List (List (Option ℕ)))[0]?).bind (fun row => row[0]?) =
          some (joides 99999 4 30) ∧
        ∀ d : ℤ, 0 ≤ d → d ≤ 2500 →
          joides (d : ℝ) 4 30 ≠ joides 99999 4 30) := by
  have heval : evaluate [[99999]] 4 30 =
      Except.ok ([[joides (((99999 : ℤ)) : ℝ) 4 30]], joides 99999 4 30) := by
    rw [evaluate, if_neg (by decide)]
    rfl
  exact ⟨⟨heval, by simp⟩,
    C3_sentinel_roundtrip [[99999]] _ _ 0 0 heval (by simp)⟩

end GHSZ
